import Mathlib

/-!
# Verification of the nevy_prediction simulation core

A shallow embedding of the tick clock, world-update queue, clock-sample
estimator, client reset path, built-in update executors, entity-id map and
extraction protocol of the `nevy_prediction` crate, with theorems settling
the specification's claims about them.

Conventions:
* `std::time::Duration` is modelled as a natural number of nanoseconds.
* Rust code that can panic (`Duration` subtraction underflow, `u32`
  subtraction underflow, `Time::advance_to` moving backwards) is modelled
  with `Option`/`Except`: `none`/`.error` marks the panicking input.
* Bevy resources and worlds are reduced to the fields the claims speak
  about; each definition's doc comment names the Rust item it embeds.
-/

namespace NevyPrediction

/-- `std::time::Duration` as a number of nanoseconds. -/
abbrev Duration := Nat

/-! ## World updates and the ordered queue
From `common/simulation/mod.rs`. -/

/-- `WorldUpdate<T> { tick: SimulationTick, update: T }`.
`SimulationTick` is a `u32` newtype; the claims' traces stay far below
`2^32`, so the tick is carried as a `Nat`. -/
structure WorldUpdate (T : Type) where
  tick : Nat
  update : T
deriving DecidableEq

/-- `WorldUpdateQueue<T>(VecDeque<WorldUpdate<T>>)`; the list head is the
front of the deque. -/
abbrev WorldUpdateQueue (T : Type) := List (WorldUpdate T)

/-- `WorldUpdateQueue::insert`: `partition_point(|e| e.tick <= update.tick)`
followed by `insert(index, update)`.  On the tick-sorted deque (the only
queues the crate ever builds, see `runQueueOps_sorted`) `partition_point`
returns the length of the prefix of entries with `tick ≤ update.tick`, so
the new update lands right after that prefix — after all equal ticks. -/
def WorldUpdateQueue.insert (q : WorldUpdateQueue T) (u : WorldUpdate T) :
    WorldUpdateQueue T :=
  q.takeWhile (fun e => decide (e.tick ≤ u.tick)) ++
    u :: q.dropWhile (fun e => decide (e.tick ≤ u.tick))

/-- `WorldUpdateQueue::next`: pop the front update if it is timestamped at
or before `tick`, otherwise leave the queue untouched and return `None`.
Returns the popped update together with the remaining queue. -/
def WorldUpdateQueue.next (q : WorldUpdateQueue T) (tick : Nat) :
    Option (WorldUpdate T × WorldUpdateQueue T) :=
  match q with
  | [] => none
  | front :: rest => if front.tick > tick then none else some (front, rest)

/-- One update as yielded by `ReadyUpdates::drain`: the payload, the tick it
was inserted with, and whether the "late by n ticks" warning fired
(`update.tick != current_tick`). -/
structure DrainedUpdate (T : Type) where
  update : T
  tick : Nat
  late : Bool
deriving DecidableEq

/-- The record `ReadyUpdates::drain` builds from a popped update at
`current_tick = c`. -/
def mkDrained (c : Nat) (u : WorldUpdate T) : DrainedUpdate T :=
  ⟨u.update, u.tick, decide (u.tick ≠ c)⟩

/-- `ReadyUpdates::drain`: repeatedly calls `WorldUpdateQueue::next` at
`current_tick` until it returns `None`, yielding each popped update (with
its late flag).  Returns the yielded records and the remaining queue. -/
def ReadyUpdates.drain (currentTick : Nat) :
    WorldUpdateQueue T → List (DrainedUpdate T) × WorldUpdateQueue T
  | [] => ([], [])
  | front :: rest =>
    if front.tick > currentTick then ([], front :: rest)
    else
      let res := ReadyUpdates.drain currentTick rest
      (mkDrained currentTick front :: res.1, res.2)

/-- A queue's tick order: non-decreasing ticks front to back. -/
def SortedByTick (q : WorldUpdateQueue T) : Prop :=
  q.Pairwise (fun a b => a.tick ≤ b.tick)

/-! ### Lifetime traces of one `UpdateExecutionQueue<T>`
The only operations the crate performs on an execution queue are
`insert` (from the network receivers and `PredictionUpdateCreator`) and a
full `ReadyUpdates::drain` during a simulation tick. -/

/-- One operation on an `UpdateExecutionQueue<T>` over its lifetime. -/
inductive QueueOp (T : Type)
  | insert (u : WorldUpdate T)
  | drainAt (currentTick : Nat)

/-- The queue together with the log of everything `drain` has yielded:
`(current_tick at the drain, yielded record)` in yield order. -/
structure QueueTrace (T : Type) where
  queue : WorldUpdateQueue T
  yielded : List (Nat × DrainedUpdate T)

/-- Effect of one operation on the queue and the yield log. -/
def QueueOp.step (s : QueueTrace T) : QueueOp T → QueueTrace T
  | .insert u => { s with queue := s.queue.insert u }
  | .drainAt c =>
    let res := ReadyUpdates.drain c s.queue
    { queue := res.2, yielded := s.yielded ++ res.1.map (fun d => (c, d)) }

/-- A fresh `UpdateExecutionQueue<T>` (`Default`: empty deque). -/
def QueueTrace.init : QueueTrace T := ⟨[], []⟩

/-- Run a lifetime's worth of operations on a fresh queue. -/
def runQueueOps (ops : List (QueueOp T)) : QueueTrace T :=
  ops.foldl QueueOp.step QueueTrace.init

/-- How many times `u` was inserted by the operations. -/
def insertCount [DecidableEq T] (u : WorldUpdate T) (ops : List (QueueOp T)) : Nat :=
  ops.countP (fun op => match op with
    | .insert v => decide (v = u)
    | .drainAt _ => false)

/-- How many times the payload of `u` (with `u`'s tick) appears in a yield
log. -/
def yieldCount [DecidableEq T] (u : WorldUpdate T)
    (log : List (Nat × DrainedUpdate T)) : Nat :=
  log.countP (fun p => decide (p.2.tick = u.tick ∧ p.2.update = u.update))

/-! ### Queue lemmas -/

theorem drain_eq_takeWhile_dropWhile (c : Nat) (q : WorldUpdateQueue T) :
    ReadyUpdates.drain c q =
      ((q.takeWhile (fun e => decide (e.tick ≤ c))).map (mkDrained c),
        q.dropWhile (fun e => decide (e.tick ≤ c))) := by
  induction q with
  | nil => rfl
  | cons front rest ih =>
    by_cases h : front.tick ≤ c
    · simp [ReadyUpdates.drain, List.takeWhile_cons, List.dropWhile_cons, h,
        Nat.not_lt.mpr h, ih]
    · simp [ReadyUpdates.drain, List.takeWhile_cons, List.dropWhile_cons, h,
        Nat.lt_of_not_le h]

theorem sorted_dropWhile_gt (c : Nat) (q : WorldUpdateQueue T)
    (hs : SortedByTick q) :
    ∀ v ∈ q.dropWhile (fun e => decide (e.tick ≤ c)), c < v.tick := by
  induction q with
  | nil => simp
  | cons front rest ih =>
    rcases (List.pairwise_cons.mp hs) with ⟨hfront, hrest⟩
    by_cases h : front.tick ≤ c
    · simpa [List.dropWhile_cons, h] using ih hrest
    · intro v hv
      simp only [List.dropWhile_cons, h, decide_eq_false] at hv
      rcases List.mem_cons.mp hv with rfl | hv
      · exact Nat.lt_of_not_le h
      · exact Nat.lt_of_lt_of_le (Nat.lt_of_not_le h) (hfront v hv)

theorem sorted_mem_takeWhile (c : Nat) (q : WorldUpdateQueue T)
    (hs : SortedByTick q) (u : WorldUpdate T) (hu : u ∈ q) (ht : u.tick ≤ c) :
    u ∈ q.takeWhile (fun e => decide (e.tick ≤ c)) := by
  induction q with
  | nil => simp at hu
  | cons front rest ih =>
    rcases (List.pairwise_cons.mp hs) with ⟨hfront, hrest⟩
    rcases List.mem_cons.mp hu with rfl | hu
    · simp [List.takeWhile_cons, ht]
    · have hf : front.tick ≤ c := le_trans (hfront u hu) ht
      simpa [List.takeWhile_cons, hf] using Or.inr (ih hrest hu)

theorem insert_sorted (q : WorldUpdateQueue T) (u : WorldUpdate T)
    (hs : SortedByTick q) : SortedByTick (q.insert u) := by
  unfold WorldUpdateQueue.insert SortedByTick
  rw [List.pairwise_append]
  refine ⟨hs.sublist (List.takeWhile_sublist _), ?_, ?_⟩
  · rw [List.pairwise_cons]
    refine ⟨fun v hv => le_of_lt (sorted_dropWhile_gt u.tick q hs v hv), ?_⟩
    exact hs.sublist (List.dropWhile_sublist _)
  · intro a ha b hb
    have ha' : a.tick ≤ u.tick := by
      simpa using List.mem_takeWhile_imp ha
    rcases List.mem_cons.mp hb with rfl | hb
    · exact ha'
    · exact le_of_lt (Nat.lt_of_le_of_lt ha' (sorted_dropWhile_gt u.tick q hs b hb))

theorem insert_count (q : WorldUpdateQueue T) (u v : WorldUpdate T)
    [DecidableEq T] :
    (q.insert v).count u = q.count u + if v = u then 1 else 0 := by
  unfold WorldUpdateQueue.insert
  rw [List.count_append, List.count_cons]
  conv_rhs => rw [← List.takeWhile_append_dropWhile
    (p := fun e => decide (e.tick ≤ v.tick)) (l := q), List.count_append]
  simp only [beq_iff_eq]
  omega

theorem countP_match_eq_count [DecidableEq T] (u : WorldUpdate T)
    (l : List (WorldUpdate T)) :
    l.countP (fun e => decide (e.tick = u.tick ∧ e.update = u.update)) =
      l.count u := by
  induction l with
  | nil => rfl
  | cons e rest ih =>
    rw [List.countP_cons, List.count_cons, ih]
    rcases e with ⟨et, eu⟩
    rcases u with ⟨ut, uu⟩
    by_cases h1 : et = ut <;> by_cases h2 : eu = uu
    all_goals simp [h1, h2]

/-- Every log entry a well-formed trace carries: yielded at a tick no
earlier than its own, with the late warning exactly on strict lateness. -/
def YieldedOk (log : List (Nat × DrainedUpdate T)) : Prop :=
  ∀ p ∈ log, p.2.tick ≤ p.1 ∧ (p.2.late = true ↔ p.2.tick < p.1)

theorem runQueueOps_inv [DecidableEq T] (u : WorldUpdate T) :
    ∀ (ops : List (QueueOp T)) (s : QueueTrace T),
      YieldedOk s.yielded → SortedByTick s.queue →
      (yieldCount u (ops.foldl QueueOp.step s).yielded
          + (ops.foldl QueueOp.step s).queue.count u
        = yieldCount u s.yielded + s.queue.count u + insertCount u ops)
      ∧ YieldedOk (ops.foldl QueueOp.step s).yielded
      ∧ SortedByTick (ops.foldl QueueOp.step s).queue := by
  intro ops
  induction ops with
  | nil => intro s h1 h2; simpa [insertCount] using ⟨h1, h2⟩
  | cons op rest ih =>
    intro s h1 h2
    match op with
    | .insert v =>
      have step_eq : QueueOp.step s (.insert v) =
          { s with queue := s.queue.insert v } := rfl
      have h2' : SortedByTick (s.queue.insert v) := insert_sorted _ _ h2
      obtain ⟨hc, hy, hs⟩ := ih ({ s with queue := s.queue.insert v }) h1 h2'
      refine ⟨?_, hy, hs⟩
      rw [List.foldl_cons, step_eq, hc, insert_count]
      simp only [insertCount, List.countP_cons]
      by_cases hv : v = u
      all_goals simp [hv]
      all_goals omega
    | .drainAt c =>
      have append_all :
          s.queue = (s.queue.takeWhile (fun e => decide (e.tick ≤ c))) ++
            s.queue.dropWhile (fun e => decide (e.tick ≤ c)) :=
        (List.takeWhile_append_dropWhile (p := fun e => decide (e.tick ≤ c))
          (l := s.queue)).symm
      have hqueue : (QueueOp.step s (.drainAt c)).queue =
          s.queue.dropWhile (fun e => decide (e.tick ≤ c)) := by
        simp [QueueOp.step, drain_eq_takeWhile_dropWhile]
      have hyield : (QueueOp.step s (.drainAt c)).yielded = s.yielded ++
          ((s.queue.takeWhile (fun e => decide (e.tick ≤ c))).map
            (mkDrained c)).map (fun d => (c, d)) := by
        simp [QueueOp.step, drain_eq_takeWhile_dropWhile]
      have h1' : YieldedOk (QueueOp.step s (.drainAt c)).yielded := by
        rw [hyield]
        intro p hp
        rcases List.mem_append.mp hp with hp | hp
        · exact h1 p hp
        · rcases List.mem_map.mp hp with ⟨d, hd, rfl⟩
          rcases List.mem_map.mp hd with ⟨e, he, rfl⟩
          have : e.tick ≤ c := by simpa using List.mem_takeWhile_imp he
          constructor
          · exact this
          · simp only [mkDrained, decide_eq_true_eq]
            omega
      have h2' : SortedByTick (QueueOp.step s (.drainAt c)).queue := by
        rw [hqueue]
        exact h2.sublist (List.dropWhile_sublist _)
      obtain ⟨hc', hy, hsrt⟩ := ih (QueueOp.step s (.drainAt c)) h1' h2'
      refine ⟨?_, hy, hsrt⟩
      have hcount : yieldCount u (QueueOp.step s (.drainAt c)).yielded +
          (QueueOp.step s (.drainAt c)).queue.count u =
          yieldCount u s.yielded + s.queue.count u := by
        rw [hqueue, hyield]
        unfold yieldCount
        rw [List.countP_append]
        simp only [List.countP_map]
        have hfun : ∀ l : List (WorldUpdate T), l.countP
            (((fun p : Nat × DrainedUpdate T =>
                decide (p.2.tick = u.tick ∧ p.2.update = u.update)) ∘
              fun d => (c, d)) ∘ mkDrained c) = l.count u := by
          intro l
          refine (List.countP_congr ?_).trans (countP_match_eq_count u l)
          intro e _
          simp [mkDrained, Function.comp]
        conv_rhs => rw [append_all, List.count_append]
        rw [hfun]
        omega
      rw [List.foldl_cons, hc', hcount]
      simp [insertCount, List.countP_cons]

/-- **C1.** For every update `u` inserted into an `UpdateExecutionQueue<T>`
with tick `t = u.tick`, over any lifetime of the queue (any sequence of
`insert`s and full `ReadyUpdates::drain`s starting from the empty queue):
the number of times `u` is yielded plus the copies still queued equals the
number of times it was inserted (so each insertion is delivered at most
once and never duplicated or dropped); every yielded occurrence happens
during a simulation tick whose `current_tick` is at least `t`, and the
"late" warning fires exactly when it is yielded at a tick strictly greater
than `t`, the update being yielded all the same; and a drain at
`current_tick = c` leaves no update with tick ≤ `c` behind, so the payload
is yielded (exactly once) by the first drain at a tick ≥ `t` after its
insertion. -/
theorem drain_delivers_exactly_once [DecidableEq T] (ops : List (QueueOp T))
    (u : WorldUpdate T) (c : Nat) :
    (yieldCount u (runQueueOps ops).yielded + (runQueueOps ops).queue.count u
        = insertCount u ops)
    ∧ YieldedOk (runQueueOps ops).yielded
    ∧ (∀ v ∈ (runQueueOps (ops ++ [QueueOp.drainAt c])).queue, c < v.tick) := by
  have base := runQueueOps_inv u ops QueueTrace.init
    (by simp [YieldedOk, QueueTrace.init])
    (by simp [SortedByTick, QueueTrace.init])
  obtain ⟨hc, hy, hs⟩ := base
  refine ⟨?_, hy, ?_⟩
  · simpa [runQueueOps, QueueTrace.init, yieldCount] using hc
  · intro v hv
    rw [runQueueOps, List.foldl_append] at hv
    have hq : (QueueOp.step (ops.foldl QueueOp.step QueueTrace.init)
        (.drainAt c)).queue =
        (ops.foldl QueueOp.step QueueTrace.init).queue.dropWhile
          (fun e => decide (e.tick ≤ c)) := by
      simp [QueueOp.step, drain_eq_takeWhile_dropWhile]
    rw [List.foldl_cons, List.foldl_nil, hq] at hv
    exact sorted_dropWhile_gt c _ hs v hv

theorem takeWhile_append_all (p : α → Bool) (L R : List α)
    (h : ∀ x ∈ L, p x = true) : (L ++ R).takeWhile p = L ++ R.takeWhile p := by
  induction L with
  | nil => rfl
  | cons x rest ih =>
    have hx : p x = true := h x (by simp)
    simp [List.takeWhile_cons, hx, ih (fun y hy => h y (by simp [hy]))]

/-- **C2.** On a tick-sorted queue, `WorldUpdateQueue::insert` keeps the
queue sorted by non-decreasing tick and places the new update after every
update already in the queue whose tick is ≤ (in particular =) its own: if
`a` is already in the queue and `b` with `b.tick = a.tick` is inserted,
the queue decomposes with `a` strictly before `b`, and any drain that
reaches their tick yields `a` strictly before `b` — the one inserted first
is drained first. -/
theorem insert_sorted_stable (q : WorldUpdateQueue T) (a b : WorldUpdate T)
    (hs : SortedByTick q) :
    SortedByTick (q.insert b)
    ∧ (a ∈ q → a.tick = b.tick →
        ∃ l₁ l₂, q.insert b = l₁ ++ a :: l₂ ++
          b :: q.dropWhile (fun e => decide (e.tick ≤ b.tick)))
    ∧ (∀ c, b.tick ≤ c → a ∈ q → a.tick = b.tick →
        ∃ d₁ d₂ d₃, (ReadyUpdates.drain c (q.insert b)).1 =
          d₁ ++ mkDrained c a :: (d₂ ++ mkDrained c b :: d₃)) := by
  have split : ∀ (ha : a ∈ q) (heq : a.tick = b.tick),
      ∃ l₁ l₂, q.takeWhile (fun e => decide (e.tick ≤ b.tick)) =
        l₁ ++ a :: l₂ := by
    intro ha heq
    exact List.append_of_mem
      (sorted_mem_takeWhile b.tick q hs a ha (le_of_eq heq))
  refine ⟨insert_sorted q b hs, ?_, ?_⟩
  · intro ha heq
    obtain ⟨l₁, l₂, hl⟩ := split ha heq
    refine ⟨l₁, l₂, ?_⟩
    rw [WorldUpdateQueue.insert, hl]
  · intro c hbc ha heq
    obtain ⟨l₁, l₂, hl⟩ := split ha heq
    have hall : ∀ x ∈ l₁ ++ a :: (l₂ ++ [b]),
        (fun e : WorldUpdate T => decide (e.tick ≤ c)) x = true := by
      intro x hx
      simp only [decide_eq_true_eq]
      have : x ∈ q.takeWhile (fun e => decide (e.tick ≤ b.tick)) ∨ x = b := by
        rcases List.mem_append.mp hx with hx | hx
        · exact Or.inl (by rw [hl]; simp [hx])
        · rcases List.mem_cons.mp hx with rfl | hx
          · exact Or.inl (by rw [hl]; simp)
          · rcases List.mem_append.mp hx with hx | hx
            · exact Or.inl (by rw [hl]; simp [hx])
            · exact Or.inr (by simpa using hx)
      rcases this with hx' | rfl
      · have : x.tick ≤ b.tick := by simpa using List.mem_takeWhile_imp hx'
        omega
      · exact hbc
    have hshape : q.insert b = (l₁ ++ a :: (l₂ ++ [b])) ++
        q.dropWhile (fun e => decide (e.tick ≤ b.tick)) := by
      rw [WorldUpdateQueue.insert, hl]
      simp
    rw [drain_eq_takeWhile_dropWhile, hshape,
      takeWhile_append_all _ _ _ hall]
    refine ⟨l₁.map (mkDrained c), l₂.map (mkDrained c),
      ((q.dropWhile (fun e => decide (e.tick ≤ b.tick))).takeWhile
        (fun e => decide (e.tick ≤ c))).map (mkDrained c), ?_⟩
    simp

/-- Witness for `insert_sorted_stable` at the queue `[⟨1, 0⟩]` with
`a = ⟨1, 0⟩` inserted first and `b = ⟨1, 1⟩` inserted second. -/
theorem insert_sorted_stable_witness :
    SortedByTick (WorldUpdateQueue.insert ([⟨1, 0⟩] : WorldUpdateQueue Nat) ⟨1, 1⟩)
    ∧ ((⟨1, 0⟩ : WorldUpdate Nat) ∈ ([⟨1, 0⟩] : WorldUpdateQueue Nat) →
        (1 : Nat) = 1 →
        ∃ l₁ l₂, WorldUpdateQueue.insert ([⟨1, 0⟩] : WorldUpdateQueue Nat) ⟨1, 1⟩ =
          l₁ ++ ⟨1, 0⟩ :: l₂ ++
          ⟨1, 1⟩ :: ([⟨1, 0⟩] : WorldUpdateQueue Nat).dropWhile
            (fun e => decide (e.tick ≤ 1)))
    ∧ (∀ c, 1 ≤ c → (⟨1, 0⟩ : WorldUpdate Nat) ∈ ([⟨1, 0⟩] : WorldUpdateQueue Nat) →
        (1 : Nat) = 1 →
        ∃ d₁ d₂ d₃,
          (ReadyUpdates.drain c
            (WorldUpdateQueue.insert ([⟨1, 0⟩] : WorldUpdateQueue Nat) ⟨1, 1⟩)).1 =
          d₁ ++ mkDrained c ⟨1, 0⟩ :: (d₂ ++ mkDrained c ⟨1, 1⟩ :: d₃)) :=
  insert_sorted_stable [⟨1, 0⟩] ⟨1, 0⟩ ⟨1, 1⟩ (by simp [SortedByTick])

/-! ## The simulation clock
`Time<SimulationTime>` from `common/simulation/mod.rs`, reduced to the
fields the claims mention: the context's `current_tick` and `target_tick`
and the generic clock's `elapsed` and `delta`. -/

/-- `Time<SimulationTime>`: `currentTick`/`targetTick` are the
`SimulationTime` context, `elapsed`/`delta` the wall-clock state bevy's
`Time` keeps (`delta` is what delta-sensitive systems observe). -/
structure SimTime where
  currentTick : Nat
  targetTick : Nat
  elapsed : Duration
  delta : Duration
deriving DecidableEq

/-- Bevy's `Time::advance_to(instant)`: sets `delta` to the difference and
`elapsed` to `instant`; panics (modelled `none`) when moving backwards. -/
def SimTime.advanceTo (time : SimTime) (instant : Duration) : Option SimTime :=
  if instant < time.elapsed then none
  else some { time with delta := instant - time.elapsed, elapsed := instant }

/-- `Time::new_with(SimulationTime { current_tick, target_tick })`:
a fresh clock has `elapsed = 0` and `delta = 0`. -/
def SimTime.newWith (current target : Nat) : SimTime :=
  { currentTick := current, targetTick := target, elapsed := 0, delta := 0 }

/-- `SimulationTick::time::<S>()`: `S::step_interval() * tick`. -/
def tickTime (Δ : Duration) (tick : Nat) : Duration := tick * Δ

/-- `PrivateSimulationTimeExt::from_tick::<S>(tick)` with
`Δ = S::step_interval()`: build the clock at `tick`, advance it to
`tick·Δ − Δ` (saturating) and then to `tick·Δ` so the first observed delta
is set. -/
def fromTick (Δ : Duration) (tick : Nat) : Option SimTime :=
  let time := SimTime.newWith tick tick
  let targetTime := tickTime Δ time.currentTick
  (time.advanceTo (targetTime - Δ)).bind (fun t => t.advanceTo targetTime)

theorem fromTick_eq (Δ : Duration) (tick : Nat) :
    fromTick Δ tick = some
      { currentTick := tick, targetTick := tick, elapsed := tick * Δ,
        delta := tick * Δ - (tick * Δ - Δ) } := by
  unfold fromTick SimTime.advanceTo SimTime.newWith tickTime
  simp only [Nat.not_lt_zero, if_neg, Option.bind_some]
  have h1 : ¬ tick * Δ - Δ < 0 := by omega
  have h2 : ¬ tick * Δ < tick * Δ - Δ := by omega
  simp [h1, h2]

/-! ## The clock-sample estimator
`ServerTickSamples` from `client/template_world.rs`. -/

/-- `ServerTickSamples`: the most recent tick and the deque of
`(wall_time_received, tick)` samples, list head = deque front = oldest. -/
structure ServerTickSamples where
  latest : Nat
  samples : List (Duration × Nat)
deriving DecidableEq

/-- `ServerTickSamples::SERVER_TIME_ESTIMATE_SAMPLES`. -/
def SERVER_TIME_ESTIMATE_SAMPLES : Nat := 32

/-- The `while self.samples.len() > 32 { self.samples.pop_front(); }` loop
of `ServerTickSamples::push`. -/
def trimSamples (l : List (Duration × Nat)) : List (Duration × Nat) :=
  if SERVER_TIME_ESTIMATE_SAMPLES < l.length then trimSamples l.tail else l
termination_by l.length
decreasing_by
  rcases l with _ | ⟨x, rest⟩
  · simp [SERVER_TIME_ESTIMATE_SAMPLES] at *
  · simp

/-- `ServerTickSamples::push(real_time, tick)`: record the latest tick,
append the sample at the back, drop from the front while over the cap. -/
def ServerTickSamples.push (s : ServerTickSamples) (realTime : Duration)
    (tick : Nat) : ServerTickSamples :=
  { latest := tick, samples := trimSamples (s.samples ++ [(realTime, tick)]) }

/-- `ServerTickSamples::reset(current_time, tick)`: `*self = default()`
followed by `push(current_time, tick)`. -/
def ServerTickSamples.reset (current_time : Duration) (tick : Nat) :
    ServerTickSamples :=
  ServerTickSamples.push { latest := 0, samples := [] } current_time tick

/-- Rust `Duration` subtraction, which panics on underflow (`none`). -/
def durSub (a b : Duration) : Option Duration :=
  if b ≤ a then some (a - b) else none

/-- `Duration::checked_div(self, rhs: u32)`: `None` on division by zero,
otherwise the duration divided with nanosecond truncation. -/
def durCheckedDiv (d : Duration) (n : Nat) : Option Duration :=
  if n = 0 then none else some (d / n)

/-- `ServerTickSamples::estimated_time::<S>(real_time)` with
`Δ = S::step_interval()`: the sum over samples of
`sample_tick·Δ + (real_time − received_time)`, divided (checked, with the
zero duration as the empty default) by the number of samples.  `none`
models the panic of `real_time - received_time` underflowing. -/
def ServerTickSamples.estimated_time (s : ServerTickSamples) (Δ : Duration)
    (realTime : Duration) : Option Duration :=
  (s.samples.mapM (fun sample =>
      (durSub realTime sample.1).map (fun elapsed =>
        tickTime Δ sample.2 + elapsed))).map
    (fun terms => (durCheckedDiv terms.sum s.samples.length).getD 0)

/-! ## Running the template world
`run_template_world` from `client/template_world.rs` and
`SimulationWorld::run` from `client/simulation_world.rs`. -/

/-- The pieces of client state `run_template_world` touches: the template
world's clock ticks, `PredictionBudget::template`, and the latest sampled
server tick. -/
structure TemplateRun where
  templateCurrentTick : Nat
  templateTargetTick : Nat
  budgetTemplate : Nat
  latest : Nat
deriving DecidableEq

/-- `run_template_world`: `desired_ticks = latest − current_tick` (a `u32`
subtraction, `none` models the underflow panic when the template is ahead
of the latest sample); return early when zero; otherwise execute
`min(desired_ticks, budget.template)` ticks — subtract them from the
budget and `SimulationWorld::run` queues exactly that many ticks
(`queue_ticks` adds them to the template clock's `target_tick`). -/
def run_template_world (s : TemplateRun) : Option TemplateRun :=
  if s.templateCurrentTick ≤ s.latest then
    let desired_ticks := s.latest - s.templateCurrentTick
    if desired_ticks = 0 then some s
    else
      let execute_ticks := min desired_ticks s.budgetTemplate
      some { s with
        budgetTemplate := s.budgetTemplate - execute_ticks,
        templateTargetTick := s.templateTargetTick + execute_ticks }
  else none

/-! ## The client reset path
`reset_simulations` from `client/mod.rs`, `SimulationWorld::reset` from
`client/simulation_world.rs`, `ServerTickSamples::reset` from
`client/template_world.rs`. -/

/-- The client state `reset_simulations::<S>` touches: the template and
prediction worlds' clocks, `ClientMain`'s own `Time<SimulationTime>`, and
the sample buffer.  (`init_resource::<PredictionBudget>` is a no-op on an
already-present resource and the world-side `ResetSimulation` schedules
only despawn entities, so neither shows up here.) -/
structure ClientState where
  template : SimTime
  prediction : SimTime
  mainTime : SimTime
  samples : ServerTickSamples
deriving DecidableEq

/-- `SimulationWorld::reset::<S>(tick)`: replace the world's
`Time<SimulationTime>` with `from_tick(tick)` (and run the destructive
`ResetSimulation` schedule, which does not touch the clock). -/
def SimulationWorld.reset (Δ : Duration) (tick : Nat) : Option SimTime :=
  fromTick Δ tick

/-- `reset_simulations::<S>` for an observed `ResetClientSimulation` with
tick `reset_tick`: reset the template and prediction worlds to that tick,
replace `ClientMain`'s clock with `from_tick(reset_tick)`, and re-seed the
sample buffer via `ServerTickSamples::reset(now, reset_tick)`. -/
def reset_simulations (Δ : Duration) (now : Duration) (reset_tick : Nat)
    (_s : ClientState) : Option ClientState :=
  (SimulationWorld.reset Δ reset_tick).bind (fun template =>
    (SimulationWorld.reset Δ reset_tick).bind (fun prediction =>
      (fromTick Δ reset_tick).map (fun mainTime =>
        { template := template, prediction := prediction, mainTime := mainTime,
          samples := ServerTickSamples.reset now reset_tick })))

/-! ### Claims about the clock, the estimator, the template runner and the
reset path -/

/-- **C9 counterexample.** The claim quantifies over every tick `t`, but at
`t = 0` (with the spec's example `Δ = 50ms`, in nanoseconds) `from_tick`
saturates `0·Δ − Δ` to `0`, both `advance_to` calls land on `0`, and the
first observed delta is `0`, not `Δ`. -/
theorem from_tick_zero_delta_not_step_interval :
    fromTick 50000000 0 =
      some { currentTick := 0, targetTick := 0, elapsed := 0, delta := 0 }
    ∧ (0 : Duration) ≠ 50000000 := by
  constructor
  · rw [fromTick_eq]
  · decide

/-- **C9 (amended).** For every tick `t`, `from_tick(t)` constructs a clock
whose `current_tick` and `target_tick` both equal `t` and whose elapsed
wall time is `t·Δ`; the wall-time delta for the first observed step is
exactly `Δ` for every `t ≥ 1`, while for `t = 0` the saturating
subtraction collapses both `advance_to` calls and the delta is `0`. -/
theorem from_tick_spec (Δ : Duration) (t : Nat) :
    ∃ time, fromTick Δ t = some time ∧ time.currentTick = t ∧
      time.targetTick = t ∧ time.elapsed = t * Δ ∧
      (1 ≤ t → time.delta = Δ) ∧ (t = 0 → time.delta = 0) := by
  refine ⟨_, fromTick_eq Δ t, rfl, rfl, rfl, ?_, ?_⟩
  · intro ht
    have hle : Δ ≤ t * Δ := Nat.le_mul_of_pos_left Δ (by omega)
    show t * Δ - (t * Δ - Δ) = Δ
    revert hle
    generalize t * Δ = k
    intro hle
    exact Nat.sub_sub_self hle
  · intro ht
    subst ht
    simp

/-- **C10.** On an empty sample buffer `estimated_time` performs no
subtraction, `checked_div` by the zero count returns `None`, and
`unwrap_or_default` turns that into the zero duration: the estimator is
total (`some`, never the modelled panic) and returns `0` for every input
time. -/
theorem estimated_time_empty_returns_zero (latest : Nat)
    (Δ realTime : Duration) :
    ServerTickSamples.estimated_time ⟨latest, []⟩ Δ realTime = some 0 := rfl

theorem trimSamples_eq_drop (l : List (Duration × Nat)) :
    trimSamples l = l.drop (l.length - SERVER_TIME_ESTIMATE_SAMPLES) := by
  induction l with
  | nil => rw [trimSamples]; simp
  | cons x xs ih =>
    rw [trimSamples]
    by_cases h : SERVER_TIME_ESTIMATE_SAMPLES < (x :: xs).length
    · rw [if_pos h]
      simp only [List.tail_cons]
      rw [ih]
      have hlen : (x :: xs).length - SERVER_TIME_ESTIMATE_SAMPLES =
          (xs.length - SERVER_TIME_ESTIMATE_SAMPLES) + 1 := by
        simp only [List.length_cons] at *
        omega
      rw [hlen, List.drop_succ_cons]
    · rw [if_neg h]
      have hlen : (x :: xs).length - SERVER_TIME_ESTIMATE_SAMPLES = 0 := by
        simp only [List.length_cons] at *
        omega
      rw [hlen, List.drop_zero]

theorem mapM_durSub (Δ now : Duration) (l : List (Duration × Nat))
    (h : ∀ p ∈ l, p.1 ≤ now) :
    l.mapM (fun sample => (durSub now sample.1).map
        (fun elapsed => tickTime Δ sample.2 + elapsed)) =
      some (l.map (fun p => tickTime Δ p.2 + (now - p.1))) := by
  induction l with
  | nil => rfl
  | cons x xs ih =>
    rw [List.mapM_cons, ih (fun p hp => h p (by simp [hp]))]
    rw [durSub, if_pos (h x (by simp))]
    rfl

/-- **C6.** `ServerTickSamples::push` appends the new sample at the back
and pops from the front until at most 32 samples remain (so the buffer
holds at most 32 samples and beyond 32 the oldest are evicted), and for a
non-empty buffer whose receive times are all ≤ `now`, `estimated_time(now)`
is the arithmetic mean — in `Duration`'s whole-nanosecond arithmetic, i.e.
the sum divided (truncating) by the sample count — of
`sample_tick·Δ + (now − wall_time_received)` over the stored samples. -/
theorem server_tick_samples_spec (s : ServerTickSamples)
    (realTime now Δ : Duration) (tick : Nat)
    (hne : s.samples ≠ [])
    (hle : ∀ p ∈ s.samples, p.1 ≤ now) :
    (s.push realTime tick).samples.length ≤ SERVER_TIME_ESTIMATE_SAMPLES
    ∧ (s.push realTime tick).samples = (s.samples ++ [(realTime, tick)]).drop
        ((s.samples.length + 1) - SERVER_TIME_ESTIMATE_SAMPLES)
    ∧ (s.push realTime tick).latest = tick
    ∧ s.estimated_time Δ now = some
        ((s.samples.map (fun p => tickTime Δ p.2 + (now - p.1))).sum /
          s.samples.length) := by
  refine ⟨?_, ?_, rfl, ?_⟩
  · rw [ServerTickSamples.push]
    simp only [trimSamples_eq_drop, List.length_drop, List.length_append]
    omega
  · rw [ServerTickSamples.push]
    simp only [trimSamples_eq_drop, List.length_append]
    rfl
  · rw [ServerTickSamples.estimated_time, mapM_durSub Δ now s.samples hle]
    have hlen : s.samples.length ≠ 0 := by
      simpa [List.length_eq_zero] using hne
    simp [durCheckedDiv, hlen]

/-- Witness for `server_tick_samples_spec`: one stored sample
`(received = 2, tick = 3)`, a push of `(40, 7)`, `Δ = 10`, `now = 5`. -/
theorem server_tick_samples_spec_witness :
    ((⟨3, [(2, 3)]⟩ : ServerTickSamples).push 40 7).samples.length ≤
        SERVER_TIME_ESTIMATE_SAMPLES
    ∧ ((⟨3, [(2, 3)]⟩ : ServerTickSamples).push 40 7).samples =
        ([(2, 3)] ++ [((40 : Duration), 7)]).drop
          (([((2 : Duration), 3)].length + 1) - SERVER_TIME_ESTIMATE_SAMPLES)
    ∧ ((⟨3, [(2, 3)]⟩ : ServerTickSamples).push 40 7).latest = 7
    ∧ (⟨3, [(2, 3)]⟩ : ServerTickSamples).estimated_time 10 5 = some
        (([((2 : Duration), 3)].map
          (fun p => tickTime 10 p.2 + (5 - p.1))).sum /
            [((2 : Duration), 3)].length) :=
  server_tick_samples_spec ⟨3, [(2, 3)]⟩ 40 5 10 7 (by decide) (by decide)

/-- **C8.** Whenever the latest sampled server tick is at least the
template world's current tick, `run_template_world` queues exactly
`min(latest − current, budget.template)` ticks on the template world
(adding them to its `target_tick` through `queue_ticks`) and subtracts the
same number from `budget.template`; when the two ticks are equal it leaves
the whole state unchanged. -/
theorem run_template_world_spec (s : TemplateRun)
    (h : s.templateCurrentTick ≤ s.latest) :
    run_template_world s = some { s with
      budgetTemplate := s.budgetTemplate -
        min (s.latest - s.templateCurrentTick) s.budgetTemplate,
      templateTargetTick := s.templateTargetTick +
        min (s.latest - s.templateCurrentTick) s.budgetTemplate }
    ∧ (s.latest = s.templateCurrentTick → run_template_world s = some s) := by
  constructor
  · rw [run_template_world, if_pos h]
    by_cases hd : s.latest - s.templateCurrentTick = 0
    · rw [if_pos hd, hd]
      simp
    · rw [if_neg hd]
  · intro heq
    rw [run_template_world, if_pos h]
    simp [heq]

/-- Witness for `run_template_world_spec`: template at tick 5, latest
sampled server tick 9, budget 3 — three ticks are queued and the budget is
exhausted. -/
theorem run_template_world_spec_witness :
    run_template_world ⟨5, 5, 3, 9⟩ = some { (⟨5, 5, 3, 9⟩ : TemplateRun) with
      budgetTemplate := 3 - min (9 - 5) 3,
      templateTargetTick := 5 + min (9 - 5) 3 }
    ∧ ((9 : Nat) = 5 → run_template_world ⟨5, 5, 3, 9⟩ = some ⟨5, 5, 3, 9⟩) :=
  run_template_world_spec ⟨5, 5, 3, 9⟩ (by decide)

theorem samples_reset_eq (now : Duration) (R : Nat) :
    ServerTickSamples.reset now R = { latest := R, samples := [(now, R)] } := by
  rw [ServerTickSamples.reset, ServerTickSamples.push, trimSamples]
  simp [SERVER_TIME_ESTIMATE_SAMPLES]

/-- **C3 counterexample.** With `Δ = 50ms` and `PredictionInterval = 100ms`
(both in nanoseconds) and a reset to tick `R = 10`, `reset_simulations`
installs `Time::<SimulationTime>::from_tick(10)` on `ClientMain` — its
`current_tick` is `10`, not `10 + PredictionInterval/Δ = 12` as the claim
requires. -/
theorem reset_sets_main_clock_to_reset_tick_only :
    (reset_simulations 50000000 1000000000 10
        ⟨⟨0, 0, 0, 0⟩, ⟨0, 0, 0, 0⟩, ⟨0, 0, 0, 0⟩, ⟨0, []⟩⟩).map
      (fun s => s.mainTime.currentTick) = some 10
    ∧ (10 : Nat) ≠ 10 + 100000000 / 50000000 := by
  constructor
  · rw [reset_simulations, SimulationWorld.reset, fromTick_eq]
    rfl
  · decide

/-- **C3 (amended).** Whenever the client observes a
`ResetClientSimulation` with tick `R`, it resets the Template and
Prediction worlds to tick `R`, sets `ClientMain`'s `SimulationTime` to
tick `R` itself (`from_tick(R)` — not `R + PredictionInterval/Δ`; the
target only advances later through `drive_simulation_time`), wipes the
server-tick sample buffer, and re-seeds it with exactly one sample stamped
`(now, R)`. -/
theorem reset_simulations_spec (Δ now : Duration) (R : Nat) (s : ClientState) :
    ∃ s', reset_simulations Δ now R s = some s'
      ∧ s'.template.currentTick = R ∧ s'.template.targetTick = R
      ∧ s'.prediction.currentTick = R ∧ s'.prediction.targetTick = R
      ∧ s'.mainTime.currentTick = R ∧ s'.mainTime.targetTick = R
      ∧ s'.samples.latest = R ∧ s'.samples.samples = [(now, R)] := by
  have h : reset_simulations Δ now R s = some
      ⟨⟨R, R, R * Δ, R * Δ - (R * Δ - Δ)⟩, ⟨R, R, R * Δ, R * Δ - (R * Δ - Δ)⟩,
        ⟨R, R, R * Δ, R * Δ - (R * Δ - Δ)⟩, ⟨R, [(now, R)]⟩⟩ := by
    rw [reset_simulations, SimulationWorld.reset, fromTick_eq, samples_reset_eq]
    rfl
  exact ⟨_, h, rfl, rfl, rfl, rfl, rfl, rfl, rfl, rfl⟩

/-! ## The built-in update executors
`update_component` from `common/simulation/update_component.rs` and
`apply_despawn_simulation_entities` from
`common/simulation/simulation_entity.rs`.  The `SimulationEntityMap` is a
lookup from simulation-entity id to local entity; component stores and the
live-entity set are reduced to what the two systems touch. -/

/-- `UpdateComponent<C> { entity, component }` — `entity` is the
`SimulationEntity` id. -/
structure UpdateComponent (C : Type) where
  entity : Nat
  component : C

/-- `DespawnSimulatonEntity { entity }` (the source's spelling). -/
structure DespawnSimulatonEntity where
  entity : Nat
deriving DecidableEq

/-- The `update_component::<C>` system over its drained updates: an id
missing from the map logs a warning (counted here) and `continue`s;
otherwise the component is set — or inserted when absent — on the mapped
local entity and `UpdateComponentCount` is bumped.  The system always
returns `Ok` with the final store, count and warning count. -/
def update_component (map : Nat → Option Nat) (store : Nat → Option C)
    (count warns : Nat) :
    List (UpdateComponent C) → Except String ((Nat → Option C) × Nat × Nat)
  | [] => .ok (store, count, warns)
  | u :: rest =>
    match map u.entity with
    | none => update_component map store count (warns + 1) rest
    | some l => update_component map
        (fun e => if e = l then some u.component else store e) (count + 1)
        warns rest

/-- The `apply_despawn_simulation_entities` system over its drained
updates: an id missing from the map makes the whole system return an
error (`ok_or(..)?`), so the updates after it are not applied in that run
(the commands already queued still are — the error carries the live set at
the abort); a mapped id despawns the local entity. -/
def apply_despawn_simulation_entities (map : Nat → Option Nat)
    (live : List Nat) :
    List DespawnSimulatonEntity → Except (String × List Nat) (List Nat)
  | [] => .ok live
  | u :: rest =>
    match map u.entity with
    | none => .error ("Simulation entity " ++ toString u.entity ++
        " did not exist locally when trying to despawn it.", live)
    | some l => apply_despawn_simulation_entities map
        (live.filter (fun e => decide (e ≠ l))) rest

theorem update_component_ok (map : Nat → Option Nat) (store : Nat → Option C)
    (count warns : Nat) (l : List (UpdateComponent C)) :
    ∃ r, update_component map store count warns l = .ok r
      ∧ r.2.1 = count + l.countP (fun u => (map u.entity).isSome)
      ∧ r.2.2 = warns + l.countP (fun u => (map u.entity).isNone) := by
  induction l generalizing store count warns with
  | nil => exact ⟨(store, count, warns), rfl, by simp, by simp⟩
  | cons u rest ih =>
    cases hm : map u.entity with
    | none =>
      obtain ⟨r, hr, hc, hw⟩ := ih store count (warns + 1)
      refine ⟨r, ?_, ?_, ?_⟩
      · simp only [update_component, hm]
        exact hr
      · rw [hc, List.countP_cons, hm]
        simp
      · rw [hw, List.countP_cons, hm]
        simp
        omega
    | some loc =>
      obtain ⟨r, hr, hc, hw⟩ :=
        ih (fun e => if e = loc then some u.component else store e) (count + 1)
          warns
      refine ⟨r, ?_, ?_, ?_⟩
      · simp only [update_component, hm]
        exact hr
      · rw [hc, List.countP_cons, hm]
        simp
        omega
      · rw [hw, List.countP_cons, hm]
        simp

theorem apply_despawn_all_known (map : Nat → Option Nat) (live : List Nat)
    (l : List DespawnSimulatonEntity)
    (h : ∀ u ∈ l, (map u.entity).isSome) :
    ∃ live2, apply_despawn_simulation_entities map live l = .ok live2 := by
  induction l generalizing live with
  | nil => exact ⟨live, rfl⟩
  | cons u rest ih =>
    cases hm : map u.entity with
    | none =>
      have := h u (by simp)
      rw [hm] at this
      simp at this
    | some loc =>
      obtain ⟨live2, hl⟩ := ih (live.filter (fun e => decide (e ≠ loc)))
        (fun v hv => h v (by simp [hv]))
      refine ⟨live2, ?_⟩
      simp only [apply_despawn_simulation_entities, hm]
      exact hl

theorem apply_despawn_some_unknown (map : Nat → Option Nat) (live : List Nat)
    (l : List DespawnSimulatonEntity) (u : DespawnSimulatonEntity)
    (hu : u ∈ l) (hm : (map u.entity).isNone) :
    ∃ err, apply_despawn_simulation_entities map live l = .error err := by
  induction l generalizing live with
  | nil => simp at hu
  | cons v rest ih =>
    cases hv : map v.entity with
    | none =>
      exact ⟨_, by rw [apply_despawn_simulation_entities, hv]⟩
    | some loc =>
      rcases List.mem_cons.mp hu with rfl | hu'
      · rw [hv] at hm
        simp at hm
      · obtain ⟨err, he⟩ := ih (live.filter (fun e => decide (e ≠ loc))) hu'
        refine ⟨err, ?_⟩
        simp only [apply_despawn_simulation_entities, hv]
        exact he

/-- **C4 counterexample.** With a map that knows only id 1 (mapped to
local entity 7) and the drained despawn updates `[id 2 (unknown), id 1
(known)]`, `apply_despawn_simulation_entities` returns an error at the
first update: the system fails, and local entity 7 — the target of the
second, perfectly valid update — is not despawned.  This contradicts the
claim that for *both* built-in update types an unknown id only logs a
warning, skips that one update, applies the rest and does not fail the
system. -/
theorem apply_despawn_unknown_entity_errors :
    apply_despawn_simulation_entities
        (fun n => if n = 1 then some 7 else none) [7] [⟨2⟩, ⟨1⟩] =
      .error ("Simulation entity 2 did not exist locally when trying to despawn it.",
        [7]) := by
  rfl

/-- **C4 (amended).** When a drained update references a simulation-entity
id absent from the local `SimulationEntityMap`: for `UpdateComponent<C>`,
the executor logs a warning, skips only that update, still applies every
remaining drained update and returns `Ok` (never fails); for
`DespawnSimulationEntity`, the executor returns an error at the first
unknown id — the updates drained after it are not applied in that run and
the system fails — while a run whose ids are all known succeeds. -/
theorem update_executors_unknown_entity_spec (C : Type)
    (map : Nat → Option Nat) (store : Nat → Option C) (count warns : Nat)
    (live : List Nat) (ucs : List (UpdateComponent C))
    (des : List DespawnSimulatonEntity) :
    (∃ r, update_component map store count warns ucs = .ok r
      ∧ r.2.1 = count + ucs.countP (fun u => (map u.entity).isSome)
      ∧ r.2.2 = warns + ucs.countP (fun u => (map u.entity).isNone))
    ∧ ((∀ u ∈ des, (map u.entity).isSome) →
        ∃ live2, apply_despawn_simulation_entities map live des = .ok live2)
    ∧ (∀ u ∈ des, (map u.entity).isNone →
        ∃ err, apply_despawn_simulation_entities map live des = .error err) :=
  ⟨update_component_ok map store count warns ucs,
    apply_despawn_all_known map live des,
    fun u hu hm => apply_despawn_some_unknown map live des u hu hm⟩

/-! ## The simulation-entity map
`SimulationEntity` with its `on_insert`/`on_replace` hooks,
`SimulationEntityMap` and `reset_simulation_entities` from
`common/simulation/simulation_entity.rs`.  A world is reduced to its
component store (`bearers`: which live local entity bears which id, a
finite table with distinct entity keys) and the map resource `semap`. -/

/-- The component store and the `SimulationEntityMap` of one instance. -/
structure EcsState where
  bearers : List (Nat × Nat)
  semap : Nat → Option Nat

/-- `HashMap::remove` on the id map. -/
def mapRemove (m : Nat → Option Nat) (id : Nat) : Nat → Option Nat :=
  fun i => if i = id then none else m i

/-- `HashMap::insert` on the id map (an occupied key is overwritten — the
`on_insert` hook logs an error in that case). -/
def mapInsert (m : Nat → Option Nat) (id e : Nat) : Nat → Option Nat :=
  fun i => if i = id then some e else m i

/-- Component lookup: which id does local entity `e` bear? -/
def lookupEntity : List (Nat × Nat) → Nat → Option Nat
  | [], _ => none
  | p :: rest, e => if p.1 = e then some p.2 else lookupEntity rest e

/-- The component store after inserting `SimulationEntity(id)` on `e`:
replace `e`'s binding, or append it. -/
def upsert : List (Nat × Nat) → Nat → Nat → List (Nat × Nat)
  | [], e, id => [(e, id)]
  | p :: rest, e, id =>
    if p.1 = e then (e, id) :: rest else p :: upsert rest e id

/-- The component store after removing the component from `e` (or
despawning `e`). -/
def removeEntity (l : List (Nat × Nat)) (e : Nat) : List (Nat × Nat) :=
  l.filter (fun p => decide (p.1 ≠ e))

/-- One operation of the claim's vocabulary.  Extraction is a composite:
`extract_simulation_entities` only spawns-and-inserts ids that are absent
from the map and `despawn_removed_simulation_entities` only despawns, so
both are sequences of these operations. -/
inductive EcsOp
  /-- Insert `SimulationEntity(id)` on live local entity `e` (spawning a
  fresh entity with the id included). -/
  | insertOn (e id : Nat)
  /-- Remove the component from `e`, or despawn `e`: the map hook sees
  both as `on_replace`. -/
  | removeFrom (e : Nat)
  /-- `reset_simulation_entities`: despawn every id-bearing entity, each
  despawn firing `on_replace`. -/
  | reset

/-- The hook-mediated effect of one operation on the store and the map.
Inserting on an entity that already bears an id fires `on_replace` for the
old id first (`map.remove(old)`), then `on_insert` for the new one
(`map.insert(id, e)`). -/
def EcsOp.step (s : EcsState) : EcsOp → EcsState
  | .insertOn e id =>
    let semap := match lookupEntity s.bearers e with
      | some idOld => mapRemove s.semap idOld
      | none => s.semap
    { bearers := upsert s.bearers e id, semap := mapInsert semap id e }
  | .removeFrom e =>
    match lookupEntity s.bearers e with
    | some idOld =>
      { bearers := removeEntity s.bearers e, semap := mapRemove s.semap idOld }
    | none => s
  | .reset =>
    { bearers := [],
      semap := s.bearers.foldl (fun m p => mapRemove m p.2) s.semap }

/-- An operation that stays off the `on_insert` hook's `error!` branch: an
id is never inserted while a *different* live entity still bears it. -/
def EcsOp.legal (s : EcsState) : EcsOp → Bool
  | .insertOn e id => s.bearers.all (fun p => decide (p.2 = id → p.1 = e))
  | .removeFrom _ => true
  | .reset => true

/-- A whole trace staying off the `error!` branch. -/
def legalTrace (s : EcsState) : List EcsOp → Bool
  | [] => true
  | op :: rest => op.legal s && legalTrace (op.step s) rest

/-- An instance with no entities and an empty map. -/
def emptyEcs : EcsState := ⟨[], fun _ => none⟩

/-- Run a sequence of operations from the empty instance. -/
def runEcsOps (ops : List EcsOp) : EcsState :=
  ops.foldl EcsOp.step emptyEcs

/-- The map is a bijection between the ids borne by live entities and
those entities: an entry `id ↦ e` exists exactly when `e` is live and
bears `id` (which pins each borne id to its unique bearer and each
bearer to its id). -/
def MapBijective (s : EcsState) : Prop :=
  ∀ id e, s.semap id = some e ↔ lookupEntity s.bearers e = some id

/-- The full state invariant: distinct entity keys and a bijective map. -/
def GoodState (s : EcsState) : Prop :=
  (s.bearers.map Prod.fst).Nodup ∧ MapBijective s

theorem lookupEntity_mem (l : List (Nat × Nat)) (e id : Nat)
    (h : lookupEntity l e = some id) : (e, id) ∈ l := by
  induction l with
  | nil => simp [lookupEntity] at h
  | cons p rest ih =>
    rw [lookupEntity] at h
    by_cases hp : p.1 = e
    · rw [if_pos hp] at h
      rcases p with ⟨pe, pid⟩
      simp at hp h
      simp [hp, h]
    · rw [if_neg hp] at h
      exact List.mem_cons_of_mem p (ih h)

theorem lookupEntity_upsert_self (l : List (Nat × Nat)) (e id : Nat) :
    lookupEntity (upsert l e id) e = some id := by
  induction l with
  | nil => simp [upsert, lookupEntity]
  | cons p rest ih =>
    rw [upsert]
    by_cases hp : p.1 = e
    · rw [if_pos hp]
      simp [lookupEntity]
    · rw [if_neg hp]
      rw [lookupEntity, if_neg hp]
      exact ih

theorem lookupEntity_upsert_other (l : List (Nat × Nat)) (e id e' : Nat)
    (h : e' ≠ e) :
    lookupEntity (upsert l e id) e' = lookupEntity l e' := by
  induction l with
  | nil => simp [upsert, lookupEntity, Ne.symm h]
  | cons p rest ih =>
    rw [upsert]
    by_cases hp : p.1 = e
    · rw [if_pos hp]
      rw [lookupEntity, lookupEntity, if_neg (fun hh => h hh.symm),
        if_neg (by rw [hp]; exact fun hh => h hh.symm)]
    · rw [if_neg hp]
      rw [lookupEntity, lookupEntity, ih]

theorem upsert_keys_mem (l : List (Nat × Nat)) (e id x : Nat)
    (hx : x ∈ (upsert l e id).map Prod.fst) :
    x ∈ l.map Prod.fst ∨ x = e := by
  induction l with
  | nil => simpa [upsert] using hx
  | cons p rest ih =>
    rw [upsert] at hx
    by_cases hp : p.1 = e
    · rw [if_pos hp] at hx
      simp at hx
      rcases hx with rfl | hx
      · exact Or.inr rfl
      · exact Or.inl (by simp [hx])
    · rw [if_neg hp] at hx
      simp at hx
      rcases hx with rfl | hx
      · exact Or.inl (by simp)
      · rcases ih (by simpa using hx) with hy | hy
        · exact Or.inl (by simp [hy])
        · exact Or.inr hy

theorem upsert_nodup (l : List (Nat × Nat)) (e id : Nat)
    (h : (l.map Prod.fst).Nodup) : ((upsert l e id).map Prod.fst).Nodup := by
  induction l with
  | nil => simp [upsert]
  | cons p rest ih =>
    rw [List.map_cons, List.nodup_cons] at h
    rw [upsert]
    by_cases hp : p.1 = e
    · rw [if_pos hp]
      rw [List.map_cons, List.nodup_cons]
      exact ⟨by rw [← hp]; exact h.1, h.2⟩
    · rw [if_neg hp]
      rw [List.map_cons, List.nodup_cons]
      refine ⟨?_, ih h.2⟩
      intro hx
      rcases upsert_keys_mem rest e id p.1 hx with hy | hy
      · exact h.1 hy
      · exact hp hy

theorem removeEntity_cons (p : Nat × Nat) (rest : List (Nat × Nat)) (e : Nat) :
    removeEntity (p :: rest) e =
      if p.1 = e then removeEntity rest e else p :: removeEntity rest e := by
  by_cases hp : p.1 = e
  · rw [if_pos hp, removeEntity, removeEntity, List.filter_cons,
      if_neg (by simp [hp])]
  · rw [if_neg hp, removeEntity, removeEntity, List.filter_cons,
      if_pos (by simp [hp])]

theorem lookupEntity_removeEntity_self (l : List (Nat × Nat)) (e : Nat) :
    lookupEntity (removeEntity l e) e = none := by
  induction l with
  | nil => rfl
  | cons p rest ih =>
    rw [removeEntity_cons]
    by_cases hp : p.1 = e
    · rw [if_pos hp]
      exact ih
    · rw [if_neg hp, lookupEntity, if_neg hp]
      exact ih

theorem lookupEntity_removeEntity_other (l : List (Nat × Nat)) (e e' : Nat)
    (h : e' ≠ e) :
    lookupEntity (removeEntity l e) e' = lookupEntity l e' := by
  induction l with
  | nil => rfl
  | cons p rest ih =>
    rw [removeEntity_cons]
    by_cases hp : p.1 = e
    · rw [if_pos hp, lookupEntity,
        if_neg (by rw [hp]; exact fun hh => h hh.symm), ih]
    · rw [if_neg hp, lookupEntity, lookupEntity, ih]

theorem removeEntity_nodup (l : List (Nat × Nat)) (e : Nat)
    (h : (l.map Prod.fst).Nodup) : ((removeEntity l e).map Prod.fst).Nodup :=
  h.sublist ((List.filter_sublist l).map Prod.fst)

theorem foldl_mapRemove (l : List (Nat × Nat)) :
    ∀ (m : Nat → Option Nat) (i : Nat),
      (l.foldl (fun m p => mapRemove m p.2) m) i =
        if i ∈ l.map Prod.snd then none else m i := by
  induction l with
  | nil => intro m i; simp
  | cons p rest ih =>
    intro m i
    rw [List.foldl_cons, ih]
    by_cases hi : i ∈ rest.map Prod.snd
    · rw [if_pos hi, if_pos (by simp [hi])]
    · rw [if_neg hi]
      by_cases hp : i = p.2
      · rw [if_pos (by simp [hp]), mapRemove, if_pos hp]
      · rw [if_neg (by simp [hp, hi]), mapRemove, if_neg hp]

theorem goodState_step (s : EcsState) (op : EcsOp) (hg : GoodState s)
    (hl : op.legal s = true) : GoodState (EcsOp.step s op) := by
  obtain ⟨hnodup, hbij⟩ := hg
  match op with
  | .insertOn e id =>
    have hleg : ∀ p ∈ s.bearers, p.2 = id → p.1 = e := by
      intro p hp
      have := (List.all_eq_true.mp hl) p hp
      simp only [decide_eq_true_eq] at this
      exact this
    cases hle : lookupEntity s.bearers e with
    | none =>
      simp only [EcsOp.step, hle]
      refine ⟨upsert_nodup _ e id hnodup, ?_⟩
      intro id' e'
      simp only [mapInsert]
      by_cases hid : id' = id
      · rw [if_pos hid, hid]
        constructor
        · intro hsome
          have he' : e' = e := by simpa using hsome.symm
          subst he'
          exact lookupEntity_upsert_self _ _ _
        · intro hlook
          by_cases hee : e' = e
          · subst hee; rfl
          · rw [lookupEntity_upsert_other _ _ _ _ hee] at hlook
            exact absurd (hleg _ (lookupEntity_mem _ _ _ hlook) rfl) hee
      · rw [if_neg hid]
        by_cases hee : e' = e
        · subst hee
          constructor
          · intro hsome
            have := (hbij id' e').mp hsome
            rw [hle] at this
            exact absurd this (by simp)
          · intro hlook
            rw [lookupEntity_upsert_self] at hlook
            have hii : id = id' := by simpa using hlook
            exact absurd hii.symm hid
        · rw [lookupEntity_upsert_other _ _ _ _ hee]
          exact hbij id' e'
    | some idOld =>
      simp only [EcsOp.step, hle]
      refine ⟨upsert_nodup _ e id hnodup, ?_⟩
      intro id' e'
      simp only [mapInsert]
      by_cases hid : id' = id
      · rw [if_pos hid, hid]
        constructor
        · intro hsome
          have he' : e' = e := by simpa using hsome.symm
          subst he'
          exact lookupEntity_upsert_self _ _ _
        · intro hlook
          by_cases hee : e' = e
          · subst hee; rfl
          · rw [lookupEntity_upsert_other _ _ _ _ hee] at hlook
            exact absurd (hleg _ (lookupEntity_mem _ _ _ hlook) rfl) hee
      · rw [if_neg hid]
        simp only [mapRemove]
        by_cases hidOld : id' = idOld
        · rw [if_pos hidOld]
          constructor
          · intro hsome
            exact absurd hsome (by simp)
          · intro hlook
            by_cases hee : e' = e
            · subst hee
              rw [lookupEntity_upsert_self] at hlook
              have hii : id = id' := by simpa using hlook
              exact absurd hii.symm hid
            · rw [lookupEntity_upsert_other _ _ _ _ hee] at hlook
              have h1 : s.semap id' = some e' := (hbij id' e').mpr hlook
              have h2 : s.semap idOld = some e := (hbij idOld e).mpr hle
              rw [hidOld] at h1
              have := h1.symm.trans h2
              simp only [Option.some.injEq] at this
              exact absurd this hee
        · rw [if_neg hidOld]
          by_cases hee : e' = e
          · subst hee
            constructor
            · intro hsome
              have := (hbij id' e').mp hsome
              rw [hle] at this
              have hii : idOld = id' := by simpa using this
              exact absurd hii.symm hidOld
            · intro hlook
              rw [lookupEntity_upsert_self] at hlook
              have hii : id = id' := by simpa using hlook
              exact absurd hii.symm hid
          · rw [lookupEntity_upsert_other _ _ _ _ hee]
            exact hbij id' e'
  | .removeFrom e =>
    cases hle : lookupEntity s.bearers e with
    | none =>
      simp only [EcsOp.step, hle]
      exact ⟨hnodup, hbij⟩
    | some idOld =>
      simp only [EcsOp.step, hle]
      refine ⟨removeEntity_nodup _ _ hnodup, ?_⟩
      intro id' e'
      simp only [mapRemove]
      by_cases hid : id' = idOld
      · rw [if_pos hid]
        constructor
        · intro hsome
          exact absurd hsome (by simp)
        · intro hlook
          by_cases hee : e' = e
          · subst hee
            rw [lookupEntity_removeEntity_self] at hlook
            exact absurd hlook (by simp)
          · rw [lookupEntity_removeEntity_other _ _ _ hee] at hlook
            have h1 : s.semap id' = some e' := (hbij id' e').mpr hlook
            have h2 : s.semap idOld = some e := (hbij idOld e).mpr hle
            rw [hid] at h1
            have := h1.symm.trans h2
            simp only [Option.some.injEq] at this
            exact absurd this hee
      · rw [if_neg hid]
        by_cases hee : e' = e
        · subst hee
          rw [lookupEntity_removeEntity_self]
          constructor
          · intro hsome
            have := (hbij id' e').mp hsome
            rw [hle] at this
            have hii : idOld = id' := by simpa using this
            exact absurd hii.symm hid
          · intro hlook
            exact absurd hlook (by simp)
        · rw [lookupEntity_removeEntity_other _ _ _ hee]
          exact hbij id' e'
  | .reset =>
    refine ⟨by simp [EcsOp.step], ?_⟩
    intro id' e'
    simp only [EcsOp.step]
    rw [foldl_mapRemove]
    constructor
    · intro hsome
      by_cases hmem : id' ∈ s.bearers.map Prod.snd
      · rw [if_pos hmem] at hsome
        exact absurd hsome (by simp)
      · rw [if_neg hmem] at hsome
        have hm := lookupEntity_mem _ _ _ ((hbij id' e').mp hsome)
        exact absurd (List.mem_map_of_mem Prod.snd hm) hmem
    · intro hlook
      exact absurd hlook (by simp [lookupEntity])

theorem goodState_run (ops : List EcsOp) :
    ∀ s, GoodState s → legalTrace s ops = true →
      GoodState (ops.foldl EcsOp.step s) := by
  induction ops with
  | nil =>
    intro s hg _
    simpa using hg
  | cons op rest ih =>
    intro s hg hl
    simp only [legalTrace, Bool.and_eq_true] at hl
    exact ih (EcsOp.step s op) (goodState_step s op hg hl.1) hl.2

/-- **C7 counterexample.** The claim quantifies over *any* sequence of
operations, but inserting the same id `5` on two different entities `0`
and `1` (exactly the situation `SimulationEntity::on_insert` flags with
`error!` and resolves by overwriting the map entry) leaves both live
entities bearing id `5` while the map holds only `5 ↦ 1`: entity `0`
bears `5` yet the map does not point `5` at it, so the map is not a
bijection on the live id-bearing entities. -/
theorem entity_map_not_bijective_on_duplicate_insert :
    lookupEntity (runEcsOps [EcsOp.insertOn 0 5, EcsOp.insertOn 1 5]).bearers 0 =
      some 5
    ∧ (runEcsOps [EcsOp.insertOn 0 5, EcsOp.insertOn 1 5]).semap 5 = some 1
    ∧ ¬ GoodState (runEcsOps [EcsOp.insertOn 0 5, EcsOp.insertOn 1 5]) := by
  refine ⟨rfl, rfl, ?_⟩
  intro hg
  have h := (hg.2 5 0).mpr rfl
  have h2 : (runEcsOps [EcsOp.insertOn 0 5, EcsOp.insertOn 1 5]).semap 5 =
      some 1 := rfl
  rw [h] at h2
  simp at h2

/-- **C7 (amended).** After any sequence of component inserts, replaces,
removals, despawns and resets starting from an empty instance (extractions
are composites of these: entity extraction only inserts ids absent from
the map and only despawns) in which no insert ever uses an id currently
borne by a *different* live entity — the `on_insert` hook's `error!`
branch, which the counterexample shows does break the bijection — the
`SimulationEntityMap` is a bijection between the `SimulationEntity` ids
borne by live entities and those local entities: the insert hook indexes
an entity when the component is added and the replace hook de-indexes it
when the component is replaced or removed (despawns included). -/
theorem entity_map_bijective (ops : List EcsOp)
    (h : legalTrace emptyEcs ops = true) : GoodState (runEcsOps ops) :=
  goodState_run ops emptyEcs
    ⟨by simp [emptyEcs], fun id e => by simp [emptyEcs, lookupEntity]⟩ h

/-- Witness for `entity_map_bijective`: a trace exercising insert,
replace, remove, a duplicate id re-used only after its first bearer was
removed, a reset, and a fresh insert after the reset. -/
theorem entity_map_bijective_witness :
    GoodState (runEcsOps [EcsOp.insertOn 0 5, EcsOp.insertOn 1 7,
      EcsOp.removeFrom 0, EcsOp.insertOn 2 5, EcsOp.reset,
      EcsOp.insertOn 3 9]) :=
  entity_map_bijective [EcsOp.insertOn 0 5, EcsOp.insertOn 1 7,
    EcsOp.removeFrom 0, EcsOp.insertOn 2 5, EcsOp.reset,
    EcsOp.insertOn 3 9] (by decide)

/-! ## The extraction protocol
`mark_removed_simulation_entities`, `extract_simulation_entities` and
`despawn_removed_simulation_entities` from
`common/simulation/simulation_entity.rs`, and `extract_component` from
`common/simulation/extract_component.rs`, run in that order by the
`ExtractSimulation` schedule (`ExtractEntities` before
`ExtractComponents`).  The target world is reduced to its id-bearing
entities (local id, simulation id, one registered component, the
transient `RemovedSimulationEntity` marker), its `SimulationEntityMap`
and its fresh-entity allocator; the source world to its entities as
`(simulation id, optional component)`. -/

/-- One id-bearing entity of the target world. -/
structure TEntity (C : Type) where
  localId : Nat
  sim : Nat
  comp : Option C
  marked : Bool
deriving DecidableEq

/-- The target world during extraction. -/
structure TargetWorld (C : Type) where
  entities : List (TEntity C)
  semap : Nat → Option Nat
  nextId : Nat

/-- `mark_removed_simulation_entities`: tag every id-bearing entity with
the transient `RemovedSimulationEntity` marker. -/
def mark_removed_simulation_entities (w : TargetWorld C) : TargetWorld C :=
  { w with entities := w.entities.map (fun e => { e with marked := true }) }

/-- The spawns `extract_simulation_entities` issues, with fresh local ids
from the allocator: a spawned entity bears only the simulation id (no
component, no marker); its `on_insert` hook indexes it in the map. -/
def spawnFresh (next : Nat) : List Nat → List (TEntity C)
  | [] => []
  | id :: rest => ⟨next, id, none, false⟩ :: spawnFresh (next + 1) rest

/-- `extract_simulation_entities`: for every simulation id in the source,
if the map (as read at system start) knows it, clear the target entity's
marker; else spawn a fresh target entity bearing that id.  The commands
apply after the system: unmarks on existing entities, spawned entities
appended, their hooks adding them to the map. -/
def extract_simulation_entities (sourceIds : List Nat) (w : TargetWorld C) :
    TargetWorld C :=
  let unmarkLocals := sourceIds.filterMap (fun id => w.semap id)
  let freshSims := sourceIds.filter (fun id => (w.semap id).isNone)
  let spawned : List (TEntity C) := spawnFresh w.nextId freshSims
  { entities :=
      w.entities.map (fun e =>
        if e.localId ∈ unmarkLocals then { e with marked := false } else e)
        ++ spawned,
    semap := fun id => match spawned.find? (fun e => decide (e.sim = id)) with
      | some e => some e.localId
      | none => w.semap id,
    nextId := w.nextId + freshSims.length }

/-- `despawn_removed_simulation_entities`: despawn every still-marked
entity (the `ExtractDespawnPriority` sort only orders the despawns and
does not change the resulting entity set); each despawn fires
`on_replace`, de-indexing the entity's id. -/
def despawn_removed_simulation_entities (w : TargetWorld C) : TargetWorld C :=
  { w with
    entities := w.entities.filter (fun e => !e.marked),
    semap := fun id =>
      if w.entities.any (fun e => e.marked && decide (e.sim = id)) then none
      else w.semap id }

/-- `extract_component::<C>`: for every source entity bearing the
component, look its id up in the map — `ok_or(..)?` makes the system
error when it is absent — and set (or insert) the component on the mapped
local entity. -/
def extract_component (w : TargetWorld C) :
    List (Nat × Option C) → Except String (TargetWorld C)
  | [] => .ok w
  | (_, none) :: rest => extract_component w rest
  | (id, some c) :: rest =>
    match w.semap id with
    | none => .error (toString id ++
        " should exist because this system runs after ExtractSimulationEntities")
    | some l => extract_component
        { w with entities := w.entities.map (fun e =>
            if e.localId = l then { e with comp := some c } else e) } rest

/-- The `ExtractSimulationEntities` part of the schedule: mark, extract,
despawn-removed, in order. -/
def extractEntitiesPhase (srcIds : List Nat) (w : TargetWorld C) :
    TargetWorld C :=
  despawn_removed_simulation_entities
    (extract_simulation_entities srcIds (mark_removed_simulation_entities w))

/-- The whole `ExtractSimulation` schedule on a target world with the
`SourceWorld` installed. -/
def extractSimulation (source : List (Nat × Option C)) (w : TargetWorld C) :
    Except String (TargetWorld C) :=
  extract_component (extractEntitiesPhase (source.map Prod.fst) w) source

/-- The target's map and allocator index its entities correctly — exactly
the state the entity-map bijection maintains between extractions. -/
def WellIndexed (w : TargetWorld C) : Prop :=
  (∀ id l, w.semap id = some l ↔ ∃ e ∈ w.entities, e.localId = l ∧ e.sim = id)
  ∧ (w.entities.map TEntity.localId).Nodup
  ∧ (w.entities.map TEntity.sim).Nodup
  ∧ (∀ e ∈ w.entities, e.localId < w.nextId)

theorem spawnFresh_sims (n : Nat) (ids : List Nat) :
    (spawnFresh (C := C) n ids).map TEntity.sim = ids := by
  induction ids generalizing n with
  | nil => rfl
  | cons id rest ih => simp [spawnFresh, ih]

theorem spawnFresh_localIds (n : Nat) (ids : List Nat) :
    (spawnFresh (C := C) n ids).map TEntity.localId =
      List.range' n ids.length := by
  induction ids generalizing n with
  | nil => rfl
  | cons id rest ih => simp [spawnFresh, ih, List.range']

theorem spawnFresh_mem (n : Nat) (ids : List Nat) (e : TEntity C)
    (he : e ∈ spawnFresh n ids) :
    n ≤ e.localId ∧ e.sim ∈ ids ∧ e.comp = none ∧ e.marked = false := by
  induction ids generalizing n with
  | nil => simp [spawnFresh] at he
  | cons id rest ih =>
    rw [spawnFresh] at he
    rcases List.mem_cons.mp he with rfl | he
    · exact ⟨Nat.le_refl _, by simp, rfl, rfl⟩
    · obtain ⟨h1, h2, h3, h4⟩ := ih (n + 1) he
      exact ⟨by omega, by simp [h2], h3, h4⟩

theorem mem_unmarkLocals_iff (w : TargetWorld C) (hw : WellIndexed w)
    (srcIds : List Nat) (e : TEntity C) (he : e ∈ w.entities) :
    e.localId ∈ srcIds.filterMap (fun id => w.semap id) ↔ e.sim ∈ srcIds := by
  constructor
  · intro h
    rcases List.mem_filterMap.mp h with ⟨id, hid, hsem⟩
    rcases (hw.1 id e.localId).mp hsem with ⟨e2, he2, hl2, hs2⟩
    have he2e : e2 = e := List.inj_on_of_nodup_map hw.2.1 he2 he hl2
    rw [← he2e, hs2]
    exact hid
  · intro h
    exact List.mem_filterMap.mpr
      ⟨e.sim, h, (hw.1 e.sim e.localId).mpr ⟨e, he, rfl, rfl⟩⟩

theorem semap_isNone_iff (w : TargetWorld C) (hw : WellIndexed w) (id : Nat) :
    (w.semap id).isNone = true ↔ ∀ e ∈ w.entities, e.sim ≠ id := by
  rw [Option.isNone_iff_eq_none]
  constructor
  · intro h e he hs
    have := (hw.1 id e.localId).mpr ⟨e, he, rfl, hs⟩
    rw [h] at this
    exact absurd this (by simp)
  · intro h
    cases hsem : w.semap id with
    | none => rfl
    | some l =>
      rcases (hw.1 id l).mp hsem with ⟨e, he, _, hs⟩
      exact absurd hs (h e he)

theorem filter_unmark_aux (unmark : List Nat) (srcIds : List Nat)
    (l : List (TEntity C))
    (h : ∀ e ∈ l, (e.localId ∈ unmark ↔ e.sim ∈ srcIds)) :
    ((l.map (fun e => { e with marked := true })).map
        (fun e => if e.localId ∈ unmark then { e with marked := false }
          else e)).filter (fun e => !e.marked) =
      (l.filter (fun e => decide (e.sim ∈ srcIds))).map
        (fun e => { e with marked := false }) := by
  induction l with
  | nil => rfl
  | cons e rest ih =>
    have hcons := h e (by simp)
    have hrest := ih (fun e2 he2 => h e2 (by simp [he2]))
    simp only [List.map_map] at hrest ⊢
    by_cases hc : e.sim ∈ srcIds
    · have hc2 : e.localId ∈ unmark := hcons.mpr hc
      simp only [List.map_cons, List.filter_cons, Function.comp]
      simp [hc, hc2, hrest]
    · have hc2 : e.localId ∉ unmark := fun hx => hc (hcons.mp hx)
      simp only [List.map_cons, List.filter_cons, Function.comp]
      simp [hc, hc2, hrest]

theorem extractEntitiesPhase_entities_def (srcIds : List Nat)
    (w : TargetWorld C) :
    (extractEntitiesPhase srcIds w).entities =
      ((w.entities.map (fun e : TEntity C => { e with marked := true })).map
          (fun e : TEntity C =>
            if e.localId ∈ srcIds.filterMap (fun id => w.semap id) then
              { e with marked := false }
            else e)
        ++ spawnFresh w.nextId
            (srcIds.filter (fun id => (w.semap id).isNone))).filter
        (fun e => !e.marked) := rfl

theorem extractEntitiesPhase_semap_def (srcIds : List Nat)
    (w : TargetWorld C) (id : Nat) :
    (extractEntitiesPhase srcIds w).semap id =
      if ((w.entities.map (fun e : TEntity C => { e with marked := true })).map
            (fun e : TEntity C =>
              if e.localId ∈ srcIds.filterMap (fun id => w.semap id) then
                { e with marked := false }
              else e)
          ++ spawnFresh w.nextId
              (srcIds.filter (fun id => (w.semap id).isNone))).any
            (fun e => e.marked && decide (e.sim = id)) then none
      else
        match (spawnFresh (C := C) w.nextId
            (srcIds.filter (fun id => (w.semap id).isNone))).find?
              (fun e => decide (e.sim = id)) with
        | some e => some e.localId
        | none => w.semap id := rfl

theorem extract_entities_phase (w : TargetWorld C) (hw : WellIndexed w)
    (srcIds : List Nat) :
    (extractEntitiesPhase srcIds w).entities =
      (w.entities.filter (fun e => decide (e.sim ∈ srcIds))).map
        (fun e => { e with marked := false }) ++
      spawnFresh w.nextId
        (srcIds.filter (fun id => (w.semap id).isNone)) := by
  have h := fun e he => mem_unmarkLocals_iff w hw srcIds e he
  rw [extractEntitiesPhase_entities_def, List.filter_append,
    filter_unmark_aux _ _ _ h]
  congr 1
  refine List.filter_eq_self.mpr ?_
  intro e he
  have hm := (spawnFresh_mem _ _ e he).2.2.2
  simp [hm]

theorem extract_entities_phase_semap (w : TargetWorld C) (hw : WellIndexed w)
    (srcIds : List Nat) (id : Nat) (hid : id ∈ srcIds) :
    ∃ e, e ∈ (extractEntitiesPhase srcIds w).entities ∧ e.sim = id ∧
      (extractEntitiesPhase srcIds w).semap id = some e.localId := by
  have hany : (((w.entities.map (fun e : TEntity C => { e with marked := true })).map
        (fun e : TEntity C =>
          if e.localId ∈ srcIds.filterMap (fun id => w.semap id) then
            { e with marked := false }
          else e)
      ++ spawnFresh (C := C) w.nextId
          (srcIds.filter (fun id => (w.semap id).isNone))).any
        (fun e => e.marked && decide (e.sim = id))) = false := by
    rw [List.any_eq_false]
    intro x hx
    show ¬(x.marked && decide (x.sim = id)) = true
    rw [Bool.and_eq_true]
    rintro ⟨hmk, hsim⟩
    simp only [decide_eq_true_eq] at hsim
    rcases List.mem_append.mp hx with hx | hx
    · rcases List.mem_map.mp hx with ⟨e1, he1, rfl⟩
      rcases List.mem_map.mp he1 with ⟨e0, he0, rfl⟩
      by_cases hc : ({ e0 with marked := true } : TEntity C).localId ∈
          srcIds.filterMap (fun id => w.semap id)
      · rw [if_pos hc] at hmk
        simp at hmk
      · rw [if_neg hc] at hmk hsim
        have hin : e0.sim ∈ srcIds := by
          show ({ e0 with marked := true } : TEntity C).sim ∈ srcIds
          rw [hsim]
          exact hid
        exact hc ((mem_unmarkLocals_iff w hw srcIds e0 he0).mpr hin)
    · have := (spawnFresh_mem _ _ x hx).2.2.2
      rw [this] at hmk
      simp at hmk
  have hsem2 : (extractEntitiesPhase srcIds w).semap id =
      match (spawnFresh (C := C) w.nextId
          (srcIds.filter (fun id => (w.semap id).isNone))).find?
            (fun e => decide (e.sim = id)) with
      | some e => some e.localId
      | none => w.semap id := by
    rw [extractEntitiesPhase_semap_def, if_neg (by rw [hany]; simp)]
  cases hsome : w.semap id with
  | some l =>
    rcases (hw.1 id l).mp hsome with ⟨e0, he0, hl0, hs0⟩
    refine ⟨{ e0 with marked := false }, ?_, hs0, ?_⟩
    · rw [extract_entities_phase w hw srcIds]
      refine List.mem_append.mpr (Or.inl (List.mem_map.mpr ⟨e0, ?_, rfl⟩))
      refine List.mem_filter.mpr ⟨he0, by simp [hs0, hid]⟩
    · rw [hsem2]
      have hfind : (spawnFresh (C := C) w.nextId
          (srcIds.filter (fun id => (w.semap id).isNone))).find?
            (fun e => decide (e.sim = id)) = none := by
        rw [List.find?_eq_none]
        intro x hx
        have hsx := (spawnFresh_mem _ _ x hx).2.1
        have := List.mem_filter.mp hsx
        simp only [decide_eq_true_eq]
        intro hcontra
        rw [hcontra, hsome] at this
        simp at this
      rw [hfind, hsome, hl0]
  | none =>
    have hmemf : id ∈ srcIds.filter (fun id => (w.semap id).isNone) :=
      List.mem_filter.mpr ⟨hid, by rw [hsome]; rfl⟩
    have hex : ∃ x ∈ spawnFresh (C := C) w.nextId
        (srcIds.filter (fun id => (w.semap id).isNone)),
        (fun e : TEntity C => decide (e.sim = id)) x = true := by
      have : id ∈ (spawnFresh (C := C) w.nextId
          (srcIds.filter (fun id => (w.semap id).isNone))).map TEntity.sim := by
        rw [spawnFresh_sims]
        exact hmemf
      rcases List.mem_map.mp this with ⟨x, hx, hsx⟩
      exact ⟨x, hx, by simp [hsx]⟩
    have hsome2 := List.find?_isSome.mpr hex
    cases hfind : (spawnFresh (C := C) w.nextId
        (srcIds.filter (fun id => (w.semap id).isNone))).find?
          (fun e => decide (e.sim = id)) with
    | none => rw [hfind] at hsome2; simp at hsome2
    | some ef =>
      have hef_mem := List.mem_of_find?_eq_some hfind
      have hef_sim : ef.sim = id := by
        have := List.find?_some hfind
        simpa using this
      refine ⟨ef, ?_, hef_sim, ?_⟩
      · rw [extract_entities_phase w hw srcIds]
        exact List.mem_append.mpr (Or.inr hef_mem)
      · rw [hsem2, hfind]

theorem extract_entities_sims (w : TargetWorld C) (hw : WellIndexed w)
    (srcIds : List Nat) :
    (extractEntitiesPhase srcIds w).entities.map TEntity.sim =
      (w.entities.filter (fun e => decide (e.sim ∈ srcIds))).map TEntity.sim
        ++ srcIds.filter (fun id => (w.semap id).isNone) := by
  rw [extract_entities_phase w hw srcIds, List.map_append, List.map_map,
    spawnFresh_sims]
  congr 1

theorem extract_entities_localIds (w : TargetWorld C) (hw : WellIndexed w)
    (srcIds : List Nat) :
    (extractEntitiesPhase srcIds w).entities.map TEntity.localId =
      (w.entities.filter (fun e => decide (e.sim ∈ srcIds))).map
        TEntity.localId
        ++ List.range' w.nextId
            (srcIds.filter (fun id => (w.semap id).isNone)).length := by
  rw [extract_entities_phase w hw srcIds, List.map_append, List.map_map,
    spawnFresh_localIds]
  congr 1

theorem extract_entities_sims_nodup (w : TargetWorld C) (hw : WellIndexed w)
    (srcIds : List Nat) (hnd : srcIds.Nodup) :
    ((extractEntitiesPhase srcIds w).entities.map TEntity.sim).Nodup := by
  rw [extract_entities_sims w hw srcIds]
  refine List.Nodup.append
    (List.Nodup.sublist ((List.filter_sublist _).map _) hw.2.2.1)
    (hnd.filter _) ?_
  intro x hx1 hx2
  rcases List.mem_map.mp hx1 with ⟨e, he, rfl⟩
  have he' := (List.mem_filter.mp he).1
  have hnone := (List.mem_filter.mp hx2).2
  exact (semap_isNone_iff w hw e.sim).mp (by simpa using hnone) e he' rfl

theorem extract_entities_localIds_nodup (w : TargetWorld C)
    (hw : WellIndexed w) (srcIds : List Nat) :
    ((extractEntitiesPhase srcIds w).entities.map TEntity.localId).Nodup := by
  rw [extract_entities_localIds w hw srcIds]
  refine List.Nodup.append
    (List.Nodup.sublist ((List.filter_sublist _).map _) hw.2.1)
    (List.nodup_range' _ _) ?_
  intro x hx1 hx2
  rcases List.mem_map.mp hx1 with ⟨e, he, rfl⟩
  have he' := (List.mem_filter.mp he).1
  have hbound := hw.2.2.2 e he'
  rcases List.mem_range'.mp hx2 with ⟨i, _, hxi⟩
  omega

theorem extract_entities_mem_srcIds (w : TargetWorld C) (hw : WellIndexed w)
    (srcIds : List Nat) (e : TEntity C)
    (he : e ∈ (extractEntitiesPhase srcIds w).entities) :
    e.sim ∈ srcIds := by
  rw [extract_entities_phase w hw srcIds] at he
  rcases List.mem_append.mp he with he | he
  · rcases List.mem_map.mp he with ⟨e0, he0, rfl⟩
    have := (List.mem_filter.mp he0).2
    simpa using this
  · have := (spawnFresh_mem _ _ e he).2.1
    exact (List.mem_filter.mp this).1

theorem extract_component_ok (source : List (Nat × Option C)) :
    ∀ (w : TargetWorld C),
    (∀ id ∈ source.map Prod.fst,
        ∃ e, e ∈ w.entities ∧ e.sim = id ∧ w.semap id = some e.localId) →
    (w.entities.map TEntity.localId).Nodup →
    (w.entities.map TEntity.sim).Nodup →
    (source.map Prod.fst).Nodup →
    ∃ w', extract_component w source = .ok w'
      ∧ w'.entities.map TEntity.localId = w.entities.map TEntity.localId
      ∧ w'.entities.map TEntity.sim = w.entities.map TEntity.sim
      ∧ (∀ id c, (id, some c) ∈ source →
          ∀ e ∈ w'.entities, e.sim = id → e.comp = some c)
      ∧ (∀ e ∈ w'.entities, e.sim ∉ source.map Prod.fst →
          ∃ e0, e0 ∈ w.entities ∧ e0.localId = e.localId ∧ e0.sim = e.sim
            ∧ e0.comp = e.comp) := by
  induction source with
  | nil =>
    intro w _ _ _ _
    refine ⟨w, rfl, rfl, rfl, by simp, ?_⟩
    intro e he _
    exact ⟨e, he, rfl, rfl, rfl⟩
  | cons p rest ih =>
    intro w hmap hnl hns hsrc
    rcases p with ⟨id, c?⟩
    have hsrc' : id ∉ rest.map Prod.fst ∧ (rest.map Prod.fst).Nodup := by
      rw [List.map_cons] at hsrc
      exact List.nodup_cons.mp hsrc
    cases c? with
    | none =>
      obtain ⟨w', hok, hl, hs, hcomp, hframe⟩ := ih w
        (fun id' hid' => hmap id' (by simp [hid']))
        hnl hns hsrc'.2
      refine ⟨w', hok, hl, hs, ?_, ?_⟩
      · intro id' c hin e he hse
        rcases List.mem_cons.mp hin with heq | hin
        · simp at heq
        · exact hcomp id' c hin e he hse
      · intro e he hnot
        exact hframe e he (fun hx => hnot (by simp [hx]))
    | some c =>
      obtain ⟨e0, he0, hs0, hsem0⟩ := hmap id (by simp)
      have hstep : extract_component w ((id, some c) :: rest) =
          extract_component
            { w with entities := w.entities.map (fun e =>
                if e.localId = e0.localId then { e with comp := some c }
                else e) } rest := by
        rw [extract_component, hsem0]
      have hlocal_pres : ({ w with entities := w.entities.map (fun e =>
          if e.localId = e0.localId then { e with comp := some c }
          else e) } : TargetWorld C).entities.map TEntity.localId =
          w.entities.map TEntity.localId := by
        rw [List.map_map]
        refine List.map_congr_left (fun e _ => ?_)
        by_cases hx : e.localId = e0.localId
        · simp only [Function.comp, if_pos hx]
        · simp only [Function.comp, if_neg hx]
      have hsim_pres : ({ w with entities := w.entities.map (fun e =>
          if e.localId = e0.localId then { e with comp := some c }
          else e) } : TargetWorld C).entities.map TEntity.sim =
          w.entities.map TEntity.sim := by
        rw [List.map_map]
        refine List.map_congr_left (fun e _ => ?_)
        by_cases hx : e.localId = e0.localId
        · simp only [Function.comp, if_pos hx]
        · simp only [Function.comp, if_neg hx]
      have hid_not_rest : id ∉ rest.map Prod.fst := hsrc'.1
      obtain ⟨w', hok, hl, hs, hcomp, hframe⟩ := ih
        { w with entities := w.entities.map (fun e =>
            if e.localId = e0.localId then { e with comp := some c }
            else e) }
        (fun id' hid' => by
          obtain ⟨e', he', hs', hsem'⟩ := hmap id' (by simp [hid'])
          refine ⟨if e'.localId = e0.localId then { e' with comp := some c }
            else e', List.mem_map_of_mem _ he', ?_, ?_⟩
          · by_cases hx : e'.localId = e0.localId
            · simp only [if_pos hx]
              exact hs'
            · simp only [if_neg hx]
              exact hs'
          · by_cases hx : e'.localId = e0.localId
            · simp only [if_pos hx]
              rw [hsem', hx]
            · simp only [if_neg hx]
              exact hsem')
        (by rw [hlocal_pres]; exact hnl)
        (by rw [hsim_pres]; exact hns)
        hsrc'.2
      refine ⟨w', by rw [hstep]; exact hok, by rw [hl, hlocal_pres],
        by rw [hs, hsim_pres], ?_, ?_⟩
      · intro id' c' hin e he hse
        rcases List.mem_cons.mp hin with heq | hin
        · have hid'c : id' = id ∧ c' = c := by
            constructor
            · exact congrArg Prod.fst heq
            · simpa using congrArg Prod.snd heq
          obtain ⟨rfl, rfl⟩ := hid'c
          have hnot : e.sim ∉ rest.map Prod.fst := by
            rw [hse]
            exact hid_not_rest
          obtain ⟨e1, he1, hl1, hs1, hc1⟩ := hframe e he hnot
          rcases List.mem_map.mp he1 with ⟨ew, hew, rfl⟩
          by_cases hx : ew.localId = e0.localId
          · rw [← hc1]
            simp only [if_pos hx]
          · exfalso
            have hsim_ew : ew.sim = id' := by
              have hpres : (if ew.localId = e0.localId then
                  { ew with comp := some c' } else ew).sim = ew.sim := by
                simp only [if_neg hx]
              rw [← hpres, hs1, hse]
            exact hx (congrArg TEntity.localId
              (List.inj_on_of_nodup_map hns hew he0 (by rw [hsim_ew, hs0])))
        · exact hcomp id' c' hin e he hse
      · intro e he hnot
        have hnot' : e.sim ∉ rest.map Prod.fst := fun hx => hnot (by simp [hx])
        obtain ⟨e1, he1, hl1, hs1, hc1⟩ := hframe e he hnot'
        rcases List.mem_map.mp he1 with ⟨ew, hew, hfeq⟩
        by_cases hx : ew.localId = e0.localId
        · exfalso
          have hew_eq : ew = e0 := List.inj_on_of_nodup_map hnl hew he0 hx
          apply hnot
          have hsm : ew.sim = e.sim := by
            have hpres : (if ew.localId = e0.localId then
                ({ ew with comp := some c } : TEntity C) else ew).sim =
                ew.sim := by
              simp only [if_pos hx]
            rw [← hs1, ← hfeq, hpres]
          rw [show e.sim = id from by rw [← hsm, hew_eq, hs0]]
          simp
        · have hfe : (if ew.localId = e0.localId then
              ({ ew with comp := some c } : TEntity C) else ew) = ew :=
            if_neg hx
          rw [hfe] at hfeq
          subst hfeq
          exact ⟨ew, hew, hl1, hs1, hc1⟩

/-- **C5 counterexample.** The claim also demands that every registered
component be *equal* on each source entity and its mapped target entity —
but `ExtractSimulationComponentPlugin` never removes a component that is
absent on the source ("it will not remove it if it is removed from the
`SourceWorld`").  Concretely: the source holds entity id `5` with no
component while the target's mapped entity for `5` carries `some 3`; after
the whole `ExtractSimulation` schedule the target entity still carries
`some 3` ≠ `none`, so the component is not equal on the two sides. -/
theorem extract_component_not_removed :
    (extractSimulation [((5 : Nat), (none : Option Nat))]
        ⟨[⟨0, 5, some 3, false⟩],
          fun id => if id = 5 then some 0 else none, 1⟩).toOption.map
      (fun w => w.entities) = some [⟨0, 5, some 3, false⟩]
    ∧ (some (3 : Nat) : Option Nat) ≠ (none : Option Nat) := by
  constructor
  · rfl
  · decide

/-- **C5 (amended).** After the `ExtractSimulation` schedule runs on a
well-indexed target world with a `SourceWorld` installed (source ids
distinct), every `SimulationEntity` id present in the source maps to
exactly one entity in the target, every target entity whose id is absent
from the source is despawned, and every component registered for
extraction that is *present* on a source entity is equal on its mapped
target entity — components absent on the source are left as they were on
the target (see the counterexample). -/
theorem extract_simulation_round_trip (C : Type)
    (source : List (Nat × Option C)) (w : TargetWorld C)
    (hw : WellIndexed w) (hsrc : (source.map Prod.fst).Nodup) :
    ∃ w', extractSimulation source w = .ok w'
      ∧ (∀ id ∈ source.map Prod.fst,
          ∃ e, (e ∈ w'.entities ∧ e.sim = id) ∧
            ∀ e2, e2 ∈ w'.entities → e2.sim = id → e2 = e)
      ∧ (∀ e ∈ w'.entities, e.sim ∈ source.map Prod.fst)
      ∧ (∀ p ∈ source, ∀ c, p.2 = some c →
          ∀ e ∈ w'.entities, e.sim = p.1 → e.comp = some c) := by
  obtain ⟨w', hok, hl, hs, hcomp, hframe⟩ :=
    extract_component_ok source (extractEntitiesPhase (source.map Prod.fst) w)
      (fun id hid => extract_entities_phase_semap w hw _ id hid)
      (extract_entities_localIds_nodup w hw _)
      (extract_entities_sims_nodup w hw _ hsrc)
      hsrc
  have hsims_nodup : (w'.entities.map TEntity.sim).Nodup := by
    rw [hs]
    exact extract_entities_sims_nodup w hw _ hsrc
  refine ⟨w', hok, ?_, ?_, ?_⟩
  · intro id hid
    obtain ⟨e2, he2, hsim2, _⟩ := extract_entities_phase_semap w hw _ id hid
    have hmem : id ∈ w'.entities.map TEntity.sim := by
      rw [hs]
      exact List.mem_map.mpr ⟨e2, he2, hsim2⟩
    rcases List.mem_map.mp hmem with ⟨e, he, hse⟩
    refine ⟨e, ⟨he, hse⟩, ?_⟩
    intro e3 he3 hs3
    exact List.inj_on_of_nodup_map hsims_nodup he3 he (by rw [hs3, hse])
  · intro e he
    have hmem : e.sim ∈ w'.entities.map TEntity.sim := List.mem_map_of_mem _ he
    rw [hs] at hmem
    rcases List.mem_map.mp hmem with ⟨e2, he2, hse2⟩
    rw [← hse2]
    exact extract_entities_mem_srcIds w hw _ e2 he2
  · intro p hp c hc e he hse
    have hin : (p.1, some c) ∈ source := by
      have hpc : p = (p.1, some c) := by
        rcases p with ⟨p1, p2⟩
        simp only at hc
        rw [hc]
      rwa [hpc] at hp
    exact hcomp p.1 c hin e he hse

/-- Witness for `extract_simulation_round_trip`: source `[(5, some 7)]`
extracted into an empty (vacuously well-indexed) target. -/
theorem extract_simulation_round_trip_witness :
    ∃ w', extractSimulation [((5 : Nat), some (7 : Nat))]
        (⟨[], fun _ => none, 0⟩ : TargetWorld Nat) = .ok w'
      ∧ (∀ id ∈ [((5 : Nat), some (7 : Nat))].map Prod.fst,
          ∃ e, (e ∈ w'.entities ∧ e.sim = id) ∧
            ∀ e2, e2 ∈ w'.entities → e2.sim = id → e2 = e)
      ∧ (∀ e ∈ w'.entities, e.sim ∈ [((5 : Nat), some (7 : Nat))].map Prod.fst)
      ∧ (∀ p ∈ [((5 : Nat), some (7 : Nat))], ∀ c, p.2 = some c →
          ∀ e ∈ w'.entities, e.sim = p.1 → e.comp = some c) :=
  extract_simulation_round_trip Nat [(5, some 7)]
    ⟨[], fun _ => none, 0⟩
    ⟨fun id l => by simp, by simp, by simp, by simp⟩
    (by simp)

end NevyPrediction
